import Mathlib

/-!
Verification of the go-openapi/validate result-accumulation model and of the
schema-composition / document-level validators against their natural-language
specification.

The definitions below are shallow embeddings of the Go source:
* `Validate.Result` and its methods come from the Result type of result.go
  (src/unnamed/part_004, second file, lines 432-525);
* the composition validator comes from schemaPropsValidator.Validate
  (embedded in src/default_validator_test.go, third document, lines 226-432);
* the document-level checks come from src/spec.go.

Errors are represented by their message strings (the Go code compares errors
by the string returned from e.Error(), which is all the stated properties
depend on).  Defaulters carry no observable structure in the claims, so they
are represented by opaque numeric tokens.
-/

namespace Validate

/-- Shallow embedding of the loop body of Result.AddErrors from result.go
(src/unnamed/part_004 lines 480-494).  The Go code declares one boolean
`found` before the loop over the variadic arguments and never resets it:
`found` latches to true as soon as one argument matches an already recorded
message, which also drops every later argument of the same call.  `acc` is
the receiver's Errors slice, `es` the variadic argument list. -/
def addErrorsLoop (acc : List String) (es : List String) (found : Bool) : List String :=
  match es with
  | [] => acc
  | e :: rest =>
    if found || acc.contains e then
      addErrorsLoop acc rest true
    else
      addErrorsLoop (acc ++ [e]) rest false

/-- Shallow embedding of the Result accumulator (result.go, src/unnamed/part_004
lines 458-463).  `errors` and `matchCount` and `defaulters` are the struct
fields of the 2015 Result; `warnings` is the parallel severity bucket.
Modelled from the spec: the Result variant carrying the warnings bucket is
not under src/ (src/spec.go, src/unnamed/part_013 and src/example_validator.go
only call AddWarnings / HasWarnings on it); per the spec it is "a parallel
set of warning messages (same representation, different severity bucket)". -/
structure Result where
  errors : List String
  warnings : List String
  matchCount : Nat
  defaulters : List Nat
  deriving Repr, DecidableEq

/-- Result value produced by new(Result): all fields zero. -/
def Result.empty : Result := ⟨[], [], 0, []⟩

/-- Shallow embedding of Result.AddErrors (src/unnamed/part_004 lines 480-494):
append each argument whose message is not yet recorded, with the shared
`found` flag of the source. -/
def Result.addErrors (r : Result) (es : List String) : Result :=
  { r with errors := addErrorsLoop r.errors es false }

/-- Modelled from the spec: AddWarnings is the warnings-bucket twin of
AddErrors ("same representation, different severity bucket"); the file
defining it is not under src/ (only callers are). -/
def Result.addWarnings (r : Result) (ws : List String) : Result :=
  { r with warnings := addErrorsLoop r.warnings ws false }

/-- Shallow embedding of Result.Merge (src/unnamed/part_004 lines 468-476):
nil other is a no-op; otherwise AddErrors(other.Errors...), add the match
counts and append the defaulters.  Warnings follow the same dedup rule
(modelled from the spec, as for AddWarnings). -/
def Result.merge (r : Result) (other : Option Result) : Result :=
  match other with
  | none => r
  | some o =>
    { (r.addErrors o.errors).addWarnings o.warnings with
      matchCount := r.matchCount + o.matchCount
      defaulters := r.defaulters ++ o.defaulters }

/-- Shallow embedding of Result.IsValid (src/unnamed/part_004 lines 496-499):
valid exactly when no error message was recorded. -/
def Result.isValid (r : Result) : Bool := r.errors.isEmpty

/-- Shallow embedding of Result.HasErrors (src/unnamed/part_004 lines 501-504). -/
def Result.hasErrors (r : Result) : Bool := !r.isValid

/-- Modelled from the spec: HasWarnings of the newer Result (callers in
src/spec.go use it); true when the warnings bucket is non-empty. -/
def Result.hasWarnings (r : Result) : Bool := !r.warnings.isEmpty

/-- Modelled from the spec: HasErrorsOrWarnings of the newer Result (callers
in src/unnamed/part_013 and src/example_validator.go). -/
def Result.hasErrorsOrWarnings (r : Result) : Bool := r.hasErrors || r.hasWarnings

/-- Shallow embedding of Result.Inc (src/unnamed/part_004 lines 506-509):
increment the match count. -/
def Result.inc (r : Result) : Result := { r with matchCount := r.matchCount + 1 }

section AddErrorsLemmas

/-- Unfolding equation for one iteration of the AddErrors loop. -/
theorem addErrorsLoop_cons (acc : List String) (e : String) (rest : List String)
    (found : Bool) :
    addErrorsLoop acc (e :: rest) found =
      if found || acc.contains e then addErrorsLoop acc rest true
      else addErrorsLoop (acc ++ [e]) rest false := rfl

/-- Once the shared `found` flag of AddErrors is true, every remaining
argument of the call is dropped. -/
theorem addErrorsLoop_found_true (acc : List String) (es : List String) :
    addErrorsLoop acc es true = acc := by
  induction es with
  | nil => rfl
  | cons e rest ih => rw [addErrorsLoop_cons, if_pos (by simp), ih]

/-- Messages already recorded persist through an AddErrors call. -/
theorem addErrorsLoop_mem_mono (acc es : List String) (found : Bool) (m : String)
    (hm : m ∈ acc) : m ∈ addErrorsLoop acc es found := by
  induction es generalizing acc found with
  | nil => exact hm
  | cons e rest ih =>
    rw [addErrorsLoop_cons]
    by_cases h : (found || acc.contains e) = true
    · rw [if_pos h]
      exact ih acc true hm
    · rw [if_neg h]
      exact ih (acc ++ [e]) false (List.mem_append_left _ hm)

/-- AddErrors never appends a message that is already recorded: the number of
occurrences of any already present message is unchanged. -/
theorem addErrorsLoop_count_of_mem (acc es : List String) (found : Bool) (m : String)
    (hm : m ∈ acc) :
    (addErrorsLoop acc es found).count m = acc.count m := by
  induction es generalizing acc found with
  | nil => rfl
  | cons e rest ih =>
    rw [addErrorsLoop_cons]
    by_cases h : (found || acc.contains e) = true
    · rw [if_pos h]
      exact ih acc true hm
    · rw [if_neg h]
      have hne : e ∉ acc := by
        intro hmem
        exact h (by simp [hmem])
      have hme : ¬(m = e) := fun heq => hne (heq ▸ hm)
      rw [ih (acc ++ [e]) false (List.mem_append_left _ hm), List.count_append]
      have : List.count m [e] = 0 := List.count_eq_zero.mpr (by simpa using hme)
      rw [this]
      omega

/-- AddErrors preserves the no-duplicates invariant of the recorded
message list. -/
theorem addErrorsLoop_nodup (acc es : List String) (found : Bool)
    (h : acc.Nodup) : (addErrorsLoop acc es found).Nodup := by
  induction es generalizing acc found with
  | nil => exact h
  | cons e rest ih =>
    rw [addErrorsLoop_cons]
    by_cases hc : (found || acc.contains e) = true
    · rw [if_pos hc]
      exact ih acc true h
    · rw [if_neg hc]
      refine ih (acc ++ [e]) false ?_
      have hne : e ∉ acc := by
        intro hmem
        exact hc (by simp [hmem])
      exact List.Nodup.append h (List.nodup_singleton e)
        (List.disjoint_singleton.mpr hne)

/-- Every message present after an AddErrors call was either already recorded
or is one of the call's arguments. -/
theorem addErrorsLoop_mem_src (acc es : List String) (found : Bool) (m : String)
    (hm : m ∈ addErrorsLoop acc es found) : m ∈ acc ∨ m ∈ es := by
  induction es generalizing acc found with
  | nil => exact Or.inl hm
  | cons e rest ih =>
    rw [addErrorsLoop_cons] at hm
    by_cases hc : (found || acc.contains e) = true
    · rw [if_pos hc] at hm
      rcases ih acc true hm with h | h
      · exact Or.inl h
      · exact Or.inr (List.mem_cons_of_mem _ h)
    · rw [if_neg hc] at hm
      rcases ih (acc ++ [e]) false hm with h | h
      · rcases List.mem_append.mp h with h1 | h1
        · exact Or.inl h1
        · simp only [List.mem_singleton] at h1
          exact Or.inr (h1 ▸ List.mem_cons_self _ _)
      · exact Or.inr (List.mem_cons_of_mem _ h)

/-- An argument of AddErrors that is not yet recorded and is reached with the
`found` flag still false ends up recorded. -/
theorem addErrorsLoop_single (acc : List String) (e : String) :
    addErrorsLoop acc [e] false = if acc.contains e then acc else acc ++ [e] := by
  by_cases hm : e ∈ acc
  · rw [addErrorsLoop_cons, if_pos (by simp [hm]), if_pos (by simp [hm]),
      addErrorsLoop_found_true]
  · rw [addErrorsLoop_cons, if_neg (by simp [hm]), if_neg (by simp [hm])]
    rfl

end AddErrorsLemmas

/-- Claim C6 -- merging deduplicates by exact message equality: whenever the
receiving Result records a message exactly once (its error list being
duplicate-free, as every Result built through AddErrors/Merge is) and the
other Result also contains that message, the merged Result contains the
message exactly once. -/
theorem merge_dedup_exact_message (r o : Result) (msg : String)
    (hr : msg ∈ r.errors) (hnd : r.errors.Nodup) (_ho : msg ∈ o.errors) :
    ((r.merge (some o)).errors.count msg = 1) ∧ (r.merge (some o)).errors.Nodup := by
  have hcount : r.errors.count msg = 1 := by
    have h1 : 0 < r.errors.count msg := List.count_pos_iff.mpr hr
    have h2 : r.errors.count msg ≤ 1 := List.nodup_iff_count_le_one.mp hnd msg
    omega
  constructor
  · show (addErrorsLoop r.errors o.errors false).count msg = 1
    rw [addErrorsLoop_count_of_mem r.errors o.errors false msg hr]
    exact hcount
  · show (addErrorsLoop r.errors o.errors false).Nodup
    exact addErrorsLoop_nodup _ _ _ hnd

/-- Witness for C6: two Results each containing the message "one error";
the merged Result contains it exactly once. -/
theorem merge_dedup_exact_message_witness :
    let r : Result := ⟨["one error"], [], 0, []⟩
    let o : Result := ⟨["one error"], [], 0, []⟩
    ((r.merge (some o)).errors.count "one error" = 1) ∧ (r.merge (some o)).errors.Nodup :=
  merge_dedup_exact_message ⟨["one error"], [], 0, []⟩ ⟨["one error"], [], 0, []⟩
    "one error" (by decide) (by decide) (by decide)

/-- Claim C9 -- the `found` flag of AddErrors is shared across the whole
argument list of one call: as soon as one argument duplicates a message that
is recorded by the time it is processed, every later argument of the same
call is dropped as well, even a never-seen one.  Stated as: appending any
suffix after such a duplicate argument leaves the outcome of the call
unchanged. -/
theorem addErrors_drops_tail_after_duplicate (r : Result) (pre : List String)
    (e : String) (post : List String) (h : e ∈ (r.addErrors pre).errors) :
    r.addErrors (pre ++ e :: post) = r.addErrors pre := by
  suffices hs : ∀ acc : List String, e ∈ addErrorsLoop acc pre false →
      addErrorsLoop acc (pre ++ e :: post) false = addErrorsLoop acc pre false by
    show ({ r with errors := addErrorsLoop r.errors (pre ++ e :: post) false } : Result) = _
    rw [hs r.errors h]
    rfl
  clear h
  intro acc
  induction pre generalizing acc with
  | nil =>
    intro hacc
    have hacc2 : e ∈ acc := hacc
    have hct : (false || acc.contains e) = true := by simp [hacc2]
    rw [List.nil_append, addErrorsLoop_cons, if_pos hct, addErrorsLoop_found_true]
    rfl
  | cons p ps ih =>
    intro hacc
    rw [List.cons_append, addErrorsLoop_cons, addErrorsLoop_cons]
    by_cases hc : (false || acc.contains p) = true
    · rw [if_pos hc, if_pos hc, addErrorsLoop_found_true, addErrorsLoop_found_true]
    · rw [if_neg hc, if_neg hc]
      refine ih (acc ++ [p]) ?_
      rw [addErrorsLoop_cons, if_neg hc] at hacc
      exact hacc

/-- Witness for C9: the call AddErrors("dup", "new") on a Result already
holding "dup" records nothing -- "new" is silently dropped because it follows
the duplicate in the same call. -/
theorem addErrors_drops_tail_after_duplicate_witness :
    let r : Result := ⟨["dup"], [], 0, []⟩
    ("dup" ∈ (r.addErrors []).errors) ∧
      r.addErrors ([] ++ "dup" :: ["new"]) = r.addErrors [] :=
  ⟨by decide,
    addErrors_drops_tail_after_duplicate ⟨["dup"], [], 0, []⟩ [] "dup" ["new"] (by decide)⟩

/-! ### Composition validator

Shallow embedding of schemaPropsValidator and its Validate method, whose
source is the third document embedded in src/default_validator_test.go
(lines 226-432).  Sub-schemas are pre-compiled into sub-validators at node
construction time; here a sub-validator is represented by its observable
behaviour, a function from the input value to the Result it produces.  The
input value type is an arbitrary type variable.  Go iterates the value map
of the dependencies combinator with the unspecified order of a map range
loop; that order is passed explicitly as the list of the map keys
(`mapKeys = none` models a non-map input, for which the dependencies block
does not run). -/

/-- Dependency entry of a schema node (spec.Dependencies): either a dependent
sub-schema validated against the whole value, or a list of co-required
property names. -/
inductive Dependency (α : Type) where
  | schema (validator : α → Result)
  | property (keys : List String)

/-- Shallow embedding of the schemaPropsValidator struct
(src/default_validator_test.go lines 239-253), keeping the fields the
Validate method reads. -/
structure SchemaPropsValidator (α : Type) where
  path : String
  anyOfValidators : List (α → Result)
  oneOfValidators : List (α → Result)
  allOfValidators : List (α → Result)
  notValidator : Option (α → Result)
  dependencies : List (String × Dependency α)

/-- Error message of the anyOf combinator ("\"%s\" must validate at least one
schema (anyOf)" with the node path). -/
def anyOfMessage (path : String) : String :=
  "\"" ++ path ++ "\" must validate at least one schema (anyOf)"

/-- Error message of the oneOf combinator, naming how many alternatives
validated: "Found none valid" for zero and "Found N valid alternatives"
otherwise. -/
def oneOfMessage (path : String) (validated : Nat) : String :=
  "\"" ++ path ++ "\" must validate one and only one schema (oneOf). " ++
    (if validated == 0 then "Found none valid"
     else "Found " ++ toString validated ++ " valid alternatives")

/-- Error message of the allOf combinator, with the ". None validated" suffix
when no branch validated. -/
def allOfMessage (path : String) (noneValidated : Bool) : String :=
  "\"" ++ path ++ "\" must validate all the schemas (allOf)" ++
    (if noneValidated then ". None validated" else "")

/-- Error message of the not combinator. -/
def notMessage (path : String) : String :=
  "\"" ++ path ++ "\" must not validate the schema (not)"

/-- Error message of a missing property dependency. -/
def dependencyMessage (path : String) (depKey : String) : String :=
  "\"" ++ path ++ "\" has a dependency on " ++ depKey

/-- Best-failure selection shared by the anyOf and oneOf loops: replace the
current best failure only when the new result has a strictly higher match
count (so the first maximum is kept). -/
def betterFailure (best : Option Result) (r : Result) : Option Result :=
  match best with
  | none => some r
  | some b => if b.matchCount < r.matchCount then some r else some b

/-- Loop of the anyOf block (src/default_validator_test.go lines 305-333):
scan the branch results, stopping at the first success (Go `break`); returns
(bestFailures, firstSuccess, succeededOnce). -/
def anyOfLoop (results : List Result) (best : Option Result) :
    Option Result × Option Result × Bool :=
  match results with
  | [] => (best, none, false)
  | r :: rest =>
    if r.isValid then (none, some r, true)
    else anyOfLoop rest (betterFailure best r)

/-- Shallow embedding of the anyOf block of schemaPropsValidator.Validate
(src/default_validator_test.go lines 304-343): one synthetic error when no
branch succeeded; the best failure is merged if present, otherwise the first
success. -/
def validateAnyOfBlock (path : String) (results : List Result) (main : Result) :
    Result :=
  if results.isEmpty then main
  else
    let st := anyOfLoop results none
    let main1 := if st.2.2 then main else main.addErrors [anyOfMessage path]
    match st.1 with
    | some b => main1.merge (some b)
    | none =>
      match st.2.1 with
      | some f => main1.merge (some f)
      | none => main1

/-- Loop of the oneOf block (src/default_validator_test.go lines 351-363):
count the successes, remember the first success, and track the best failure
only among failures seen before the first success (bestFailures is reset on
every success). -/
def oneOfLoop (results : List Result) (best first : Option Result)
    (validated : Nat) : Option Result × Option Result × Nat :=
  match results with
  | [] => (best, first, validated)
  | r :: rest =>
    if r.isValid then
      oneOfLoop rest none (if first.isNone then some r else first) (validated + 1)
    else if validated == 0 then
      oneOfLoop rest (betterFailure best r) first validated
    else
      oneOfLoop rest best first validated

/-- Shallow embedding of the oneOf block of schemaPropsValidator.Validate
(src/default_validator_test.go lines 346-381): valid exactly when one branch
validated (merging only that branch); otherwise one synthetic error naming
the number of valid alternatives, plus the best failure when none was
valid. -/
def validateOneOfBlock (path : String) (results : List Result) (main : Result) :
    Result :=
  if results.isEmpty then main
  else
    let st := oneOfLoop results none none 0
    if st.2.2 ≠ 1 then
      let main1 := main.addErrors [oneOfMessage path st.2.2]
      match st.1 with
      | some b => main1.merge (some b)
      | none => main1
    else
      match st.2.1 with
      | some f => main.merge (some f)
      | none => main

/-- Loop of the allOf block (src/default_validator_test.go lines 386-392):
merge every branch result and count the valid ones. -/
def allOfLoop (results : List Result) (main : Result) (validated : Nat) :
    Result × Nat :=
  match results with
  | [] => (main, validated)
  | r :: rest =>
    allOfLoop rest (main.merge (some r)) (if r.isValid then validated + 1 else validated)

/-- Shallow embedding of the allOf block of schemaPropsValidator.Validate
(src/default_validator_test.go lines 383-400). -/
def validateAllOfBlock (path : String) (results : List Result) (main : Result) :
    Result :=
  if results.isEmpty then main
  else
    let st := allOfLoop results main 0
    if st.2 ≠ results.length then
      st.1.addErrors [allOfMessage path (st.2 == 0)]
    else st.1

/-- Shallow embedding of the not block of schemaPropsValidator.Validate
(src/default_validator_test.go lines 402-407): one error when the wrapped
schema validates; the wrapped Result is never merged. -/
def validateNotBlock (path : String) (result : Option Result) (main : Result) :
    Result :=
  match result with
  | none => main
  | some r => if r.isValid then main.addErrors [notMessage path] else main

/-- Association lookup of s.Dependencies[key]. -/
def lookupDependency {α : Type} (deps : List (String × Dependency α)) (key : String) :
    Option (Dependency α) :=
  match deps with
  | [] => none
  | (k, d) :: rest => if k == key then some d else lookupDependency rest key

/-- Inner loop over dep.Property (src/default_validator_test.go lines 419-425):
each listed co-required key missing from the value map yields one error. -/
def propertyDependencyLoop (path : String) (allKeys : List String)
    (props : List String) (main : Result) : Result :=
  match props with
  | [] => main
  | p :: rest =>
    let main1 :=
      if allKeys.contains p then main
      else main.addErrors [dependencyMessage path p]
    propertyDependencyLoop path allKeys rest main1

/-- Shallow embedding of the dependencies block loop
(src/default_validator_test.go lines 409-430): iterate the value map keys in
the order the Go runtime yields them (`iter`); keys with a schema dependency
merge the dependent validation of the whole value, keys with a property
dependency require each listed key to be present in the map. -/
def dependenciesLoop {α : Type} (path : String) (deps : List (String × Dependency α))
    (data : α) (allKeys : List String) (iter : List String) (main : Result) : Result :=
  match iter with
  | [] => main
  | key :: rest =>
    let main1 :=
      match lookupDependency deps key with
      | none => main
      | some (Dependency.schema v) => main.merge (some (v data))
      | some (Dependency.property props) =>
        propertyDependencyLoop path allKeys props main
    dependenciesLoop path deps data allKeys rest main1

/-- Shallow embedding of schemaPropsValidator.Validate
(src/default_validator_test.go lines 303-432): run the anyOf, oneOf, allOf,
not and dependencies blocks in order on a fresh main Result, then
unconditionally increment the match count.  `mapKeys` is the key list of the
value in the order Go map iteration yields it, or none when the value is not
a map. -/
def SchemaPropsValidator.validate {α : Type} (s : SchemaPropsValidator α)
    (data : α) (mapKeys : Option (List String)) : Result :=
  let main0 := Result.empty
  let main1 := validateAnyOfBlock s.path (s.anyOfValidators.map (fun v => v data)) main0
  let main2 := validateOneOfBlock s.path (s.oneOfValidators.map (fun v => v data)) main1
  let main3 := validateAllOfBlock s.path (s.allOfValidators.map (fun v => v data)) main2
  let main4 := validateNotBlock s.path (Option.map (fun v => v data) s.notValidator) main3
  let main5 :=
    match mapKeys with
    | some keys =>
      if s.dependencies.isEmpty then main4
      else dependenciesLoop s.path s.dependencies data keys keys main4
    | none => main4
  main5.inc

section CompositionLemmas

/-- A Result is valid exactly when its error list is empty. -/
theorem isValid_iff_errors_nil (r : Result) : r.isValid = true ↔ r.errors = [] := by
  simp [Result.isValid, List.isEmpty_iff]

/-- AddErrors leaves the match count unchanged. -/
theorem addErrors_matchCount (r : Result) (es : List String) :
    (r.addErrors es).matchCount = r.matchCount := rfl

/-- Merging adds the other Result's match count. -/
theorem merge_matchCount (r o : Result) :
    (r.merge (some o)).matchCount = r.matchCount + o.matchCount := rfl

/-- betterFailure applied to a present best yields some result that is at
least as well matched as both the old best and the new result, and is one of
the two. -/
theorem betterFailure_some (b0 r : Result) :
    ∃ b, betterFailure (some b0) r = some b ∧ b0.matchCount ≤ b.matchCount ∧
      r.matchCount ≤ b.matchCount ∧ (b = b0 ∨ b = r) := by
  by_cases hlt : b0.matchCount < r.matchCount
  · exact ⟨r, by simp only [betterFailure]; rw [if_pos hlt], by omega, Nat.le_refl _,
      Or.inr rfl⟩
  · exact ⟨b0, by simp only [betterFailure]; rw [if_neg hlt], Nat.le_refl _, by omega,
      Or.inl rfl⟩

/-- betterFailure always yields some result, one at least as well matched as
the new result, and the result is the new one or the old best. -/
theorem betterFailure_isSome (best : Option Result) (r : Result) :
    ∃ b, betterFailure best r = some b ∧ r.matchCount ≤ b.matchCount ∧
      (best = some b ∨ b = r) := by
  cases best with
  | none => exact ⟨r, rfl, Nat.le_refl _, Or.inr rfl⟩
  | some b0 =>
    obtain ⟨b, heq, h0, hr, hor⟩ := betterFailure_some b0 r
    refine ⟨b, heq, hr, ?_⟩
    rcases hor with h | h
    · exact Or.inl (by rw [h])
    · exact Or.inr h

/-- Folding betterFailure from a present best keeps the best at least as well
matched. -/
theorem foldBest_mono (rs : List Result) (b0 b : Result)
    (h : rs.foldl betterFailure (some b0) = some b) :
    b0.matchCount ≤ b.matchCount := by
  induction rs generalizing b0 with
  | nil =>
    cases h
    exact Nat.le_refl _
  | cons r rest ih =>
    rw [List.foldl_cons] at h
    obtain ⟨b1, heq, h0, _hr, _⟩ := betterFailure_some b0 r
    rw [heq] at h
    exact Nat.le_trans h0 (ih b1 h)

/-- Folding betterFailure over a list yields an element of the list or the
initial best. -/
theorem foldBest_mem (rs : List Result) (best : Option Result) (b : Result)
    (h : rs.foldl betterFailure best = some b) :
    b ∈ rs ∨ best = some b := by
  induction rs generalizing best with
  | nil => exact Or.inr h
  | cons r rest ih =>
    rw [List.foldl_cons] at h
    rcases ih (betterFailure best r) h with h1 | h1
    · exact Or.inl (List.mem_cons_of_mem _ h1)
    · obtain ⟨b2, heq, _hr, hor⟩ := betterFailure_isSome best r
      rw [heq] at h1
      cases h1
      rcases hor with h2 | h2
      · exact Or.inr h2
      · exact Or.inl (h2 ▸ List.mem_cons_self _ _)

/-- The best failure selected by folding betterFailure has a maximal match
count among all scanned results. -/
theorem foldBest_max (rs : List Result) (best : Option Result) (b : Result)
    (h : rs.foldl betterFailure best = some b) :
    ∀ r ∈ rs, r.matchCount ≤ b.matchCount := by
  induction rs generalizing best with
  | nil => intro r hr; cases hr
  | cons r0 rest ih =>
    rw [List.foldl_cons] at h
    intro r hr
    rcases List.mem_cons.mp hr with h1 | h1
    · subst h1
      obtain ⟨b2, heq, hle, _⟩ := betterFailure_isSome best r
      rw [heq] at h
      exact Nat.le_trans hle (foldBest_mono rest b2 b h)
    · exact ih (betterFailure best r0) h r h1

end CompositionLemmas

section LoopLemmas

/-- Unfolding equation for one iteration of the anyOf loop. -/
theorem anyOfLoop_cons (r : Result) (rest : List Result) (best : Option Result) :
    anyOfLoop (r :: rest) best =
      if r.isValid then (none, some r, true)
      else anyOfLoop rest (betterFailure best r) := rfl

/-- Unfolding equation for one iteration of the oneOf loop. -/
theorem oneOfLoop_cons (r : Result) (rest : List Result) (best first : Option Result)
    (v : Nat) :
    oneOfLoop (r :: rest) best first v =
      if r.isValid then
        oneOfLoop rest none (if first.isNone then some r else first) (v + 1)
      else if v == 0 then oneOfLoop rest (betterFailure best r) first v
      else oneOfLoop rest best first v := rfl

/-- anyOf loop outcome when no branch result is valid: best failure folded
over every branch, no success. -/
theorem anyOfLoop_all_invalid (rs : List Result) (best : Option Result)
    (h : ∀ r ∈ rs, r.isValid = false) :
    anyOfLoop rs best = (rs.foldl betterFailure best, none, false) := by
  induction rs generalizing best with
  | nil => rfl
  | cons r rest ih =>
    have hr : r.isValid = false := h r (List.mem_cons_self _ _)
    rw [anyOfLoop_cons, if_neg (by simp [hr]), List.foldl_cons]
    exact ih (betterFailure best r) (fun x hx => h x (List.mem_cons_of_mem _ hx))

/-- anyOf loop outcome at the first valid branch result: the loop breaks with
that result as first success and no best failure. -/
theorem anyOfLoop_first_valid (rs : List Result) (best : Option Result) (r1 : Result)
    (h : rs.find? (fun r => r.isValid) = some r1) :
    anyOfLoop rs best = (none, some r1, true) := by
  induction rs generalizing best with
  | nil => cases h
  | cons r rest ih =>
    cases hv : r.isValid with
    | true =>
      rw [List.find?_cons_of_pos _ hv] at h
      cases h
      rw [anyOfLoop_cons, if_pos hv]
    | false =>
      rw [List.find?_cons_of_neg _ (by simp [hv])] at h
      rw [anyOfLoop_cons, if_neg (by simp [hv])]
      exact ih (betterFailure best r) h

/-- The number of valid branch results counted by the oneOf loop. -/
theorem oneOfLoop_validated (rs : List Result) (best first : Option Result) (v : Nat) :
    (oneOfLoop rs best first v).2.2 = v + rs.countP (fun r => r.isValid) := by
  induction rs generalizing best first v with
  | nil => simp [oneOfLoop]
  | cons r rest ih =>
    rw [List.countP_cons]
    cases hv : r.isValid with
    | true =>
      rw [oneOfLoop_cons, if_pos hv, ih]
      simp [hv]
      omega
    | false =>
      rw [oneOfLoop_cons, if_neg (by simp [hv])]
      by_cases h0 : (v == 0) = true
      · rw [if_pos h0, ih]
        simp [hv]
      · rw [if_neg h0, ih]
        simp [hv]

/-- oneOf loop outcome when no branch result is valid and no success was seen
yet: best failure folded over every branch, first success and count
unchanged. -/
theorem oneOfLoop_all_invalid (rs : List Result) (best first : Option Result)
    (h : ∀ r ∈ rs, r.isValid = false) :
    oneOfLoop rs best first 0 = (rs.foldl betterFailure best, first, 0) := by
  induction rs generalizing best with
  | nil => rfl
  | cons r rest ih =>
    have hr : r.isValid = false := h r (List.mem_cons_self _ _)
    rw [oneOfLoop_cons, if_neg (by simp [hr]), if_pos (by rfl), List.foldl_cons]
    exact ih (betterFailure best r) (fun x hx => h x (List.mem_cons_of_mem _ hx))

/-- After the first success the oneOf loop never records a best failure again
and keeps the first success; it only counts further successes. -/
theorem oneOfLoop_after_success (rs : List Result) (f : Result) (v : Nat) (hv : v ≠ 0) :
    oneOfLoop rs none (some f) v =
      (none, some f, v + rs.countP (fun r => r.isValid)) := by
  induction rs generalizing v with
  | nil => simp [oneOfLoop]
  | cons r rest ih =>
    rw [List.countP_cons]
    cases hr : r.isValid with
    | true =>
      rw [oneOfLoop_cons, if_pos hr]
      simp only [Option.isNone_some, Bool.false_eq_true, if_false]
      rw [ih (v + 1) (by omega)]
      simp [hr]
      omega
    | false =>
      have hv2 : (v == 0) = false := by
        simp [hv]
      rw [oneOfLoop_cons, if_neg (by simp [hr]), hv2]
      simp only [Bool.false_eq_true, if_false]
      rw [ih v hv]
      simp [hr]

/-- oneOf loop outcome when exactly one branch result is valid: no best
failure, the valid result as first success, count one. -/
theorem oneOfLoop_exactly_one (rs : List Result) (r1 : Result)
    (hfind : rs.find? (fun r => r.isValid) = some r1)
    (hcount : rs.countP (fun r => r.isValid) = 1) :
    ∀ best : Option Result, oneOfLoop rs best none 0 = (none, some r1, 1) := by
  induction rs generalizing r1 with
  | nil => cases hfind
  | cons r rest ih =>
    intro best
    cases hv : r.isValid with
    | true =>
      rw [List.find?_cons_of_pos _ hv] at hfind
      have hr1 : r = r1 := Option.some.inj hfind
      have hrest : rest.countP (fun x => x.isValid) = 0 := by
        rw [List.countP_cons] at hcount
        simp only [hv, if_pos] at hcount
        omega
      rw [oneOfLoop_cons, if_pos hv]
      simp only [Option.isNone_none, if_pos]
      rw [oneOfLoop_after_success rest r 1 (by omega), hrest, hr1]
    | false =>
      rw [List.find?_cons_of_neg _ (by simp [hv])] at hfind
      have hrest : rest.countP (fun x => x.isValid) = 1 := by
        rw [List.countP_cons] at hcount
        simpa [hv] using hcount
      rw [oneOfLoop_cons, if_neg (by simp [hv]), if_pos (by rfl)]
      exact ih r1 hfind hrest (betterFailure best r)

/-- oneOf loop outcome when at least one branch result is valid: no best
failure is kept. -/
theorem oneOfLoop_some_valid (rs : List Result)
    (h : 1 ≤ rs.countP (fun r => r.isValid)) :
    ∀ best : Option Result, (oneOfLoop rs best none 0).1 = none := by
  induction rs with
  | nil => simp [List.countP_nil] at h
  | cons r rest ih =>
    intro best
    cases hv : r.isValid with
    | true =>
      rw [oneOfLoop_cons, if_pos hv]
      simp only [Option.isNone_none, if_pos]
      rw [oneOfLoop_after_success rest r 1 (by omega)]
    | false =>
      have hrest : 1 ≤ rest.countP (fun x => x.isValid) := by
        rw [List.countP_cons] at h
        simpa [hv] using h
      rw [oneOfLoop_cons, if_neg (by simp [hv]), if_pos (by rfl)]
      exact ih hrest (betterFailure best r)

end LoopLemmas

section BlockLemmas

/-- Folding betterFailure from a present best always yields some result. -/
theorem foldBest_some_of_some (rs : List Result) (b0 : Result) :
    ∃ b, rs.foldl betterFailure (some b0) = some b := by
  induction rs generalizing b0 with
  | nil => exact ⟨b0, rfl⟩
  | cons r rest ih =>
    obtain ⟨b1, heq, _, _, _⟩ := betterFailure_some b0 r
    rw [List.foldl_cons, heq]
    exact ih b1

/-- Folding betterFailure over a non-empty list yields some result. -/
theorem foldBest_isSome (rs : List Result) (hne : rs ≠ []) :
    ∃ b, rs.foldl betterFailure none = some b := by
  cases rs with
  | nil => exact absurd rfl hne
  | cons r rest =>
    rw [List.foldl_cons]
    exact foldBest_some_of_some rest r

/-- A composition node whose other combinators are absent reduces to the
oneOf block on a fresh main Result, followed by the final Inc. -/
theorem validate_oneOf_only {α : Type} (s : SchemaPropsValidator α) (data : α)
    (mk : Option (List String))
    (hany : s.anyOfValidators = []) (hall : s.allOfValidators = [])
    (hnot : s.notValidator = none) (hdep : s.dependencies = []) :
    s.validate data mk =
      (validateOneOfBlock s.path (s.oneOfValidators.map (fun v => v data))
        Result.empty).inc := by
  unfold SchemaPropsValidator.validate
  rw [hany, hall, hnot, hdep]
  cases mk <;>
    simp [validateAnyOfBlock, validateAllOfBlock, validateNotBlock]

/-- A composition node whose other combinators are absent reduces to the
anyOf block on a fresh main Result, followed by the final Inc. -/
theorem validate_anyOf_only {α : Type} (s : SchemaPropsValidator α) (data : α)
    (mk : Option (List String))
    (hone : s.oneOfValidators = []) (hall : s.allOfValidators = [])
    (hnot : s.notValidator = none) (hdep : s.dependencies = []) :
    s.validate data mk =
      (validateAnyOfBlock s.path (s.anyOfValidators.map (fun v => v data))
        Result.empty).inc := by
  unfold SchemaPropsValidator.validate
  rw [hone, hall, hnot, hdep]
  cases mk <;>
    simp [validateOneOfBlock, validateAllOfBlock, validateNotBlock]

end BlockLemmas

/-- Claim C1 -- oneOf semantics of the composition validator, for a schema
node carrying (only) a non-empty oneOf list: the verdict is valid iff exactly
one branch validates; in the valid case only the first successful branch
Result is merged; otherwise exactly one error is recorded whose message
names how many alternatives validated ("Found none valid" for zero, "Found N
valid alternatives" for two or more), and with zero successes the failed
branch Result with the highest match count is additionally merged. -/
theorem oneOf_verdict_and_diagnostics {α : Type} (s : SchemaPropsValidator α)
    (data : α) (mk : Option (List String))
    (hany : s.anyOfValidators = []) (hall : s.allOfValidators = [])
    (hnot : s.notValidator = none) (hdep : s.dependencies = [])
    (hone : s.oneOfValidators ≠ []) :
    let rs := s.oneOfValidators.map (fun v => v data)
    let res := s.validate data mk
    let n := rs.countP (fun r => r.isValid)
    (res.isValid = true ↔ n = 1)
    ∧ (∀ r1, rs.find? (fun r => r.isValid) = some r1 → n = 1 →
        res = (Result.empty.merge (some r1)).inc ∧ res.errors = [])
    ∧ (n ≠ 1 → res.errors.count (oneOfMessage s.path n) = 1)
    ∧ (2 ≤ n → res = (Result.empty.addErrors [oneOfMessage s.path n]).inc)
    ∧ (n = 0 → ∃ b, b ∈ rs ∧ b.isValid = false ∧
        (∀ r ∈ rs, r.matchCount ≤ b.matchCount) ∧
        res = ((Result.empty.addErrors [oneOfMessage s.path 0]).merge (some b)).inc) := by
  intro rs res n
  have hres : res = (validateOneOfBlock s.path rs Result.empty).inc :=
    validate_oneOf_only s data mk hany hall hnot hdep
  have hrs_ne : rs ≠ [] := by
    intro hnil
    exact hone (List.map_eq_nil_iff.mp hnil)
  have hrs_emp : rs.isEmpty = false := by
    cases hrse : rs with
    | nil => exact absurd hrse hrs_ne
    | cons a l => rfl
  -- Case analysis facts, phrased once each.
  have case0 : n = 0 → ∃ b, b ∈ rs ∧ b.isValid = false ∧
      (∀ r ∈ rs, r.matchCount ≤ b.matchCount) ∧
      res = ((Result.empty.addErrors [oneOfMessage s.path 0]).merge (some b)).inc := by
    intro h0
    have hallinv : ∀ r ∈ rs, r.isValid = false := by
      intro r hr
      have := List.countP_eq_zero.mp h0 r hr
      simpa using this
    obtain ⟨b, hb⟩ := foldBest_isSome rs hrs_ne
    have hloop := oneOfLoop_all_invalid rs none none hallinv
    rw [hb] at hloop
    have hbmem : b ∈ rs := by
      rcases foldBest_mem rs none b hb with h | h
      · exact h
      · cases h
    refine ⟨b, hbmem, hallinv b hbmem, foldBest_max rs none b hb, ?_⟩
    rw [hres]
    unfold validateOneOfBlock
    rw [if_neg (by simp [hrs_emp]), hloop]
    norm_num
  have case1 : ∀ r1, rs.find? (fun r => r.isValid) = some r1 → n = 1 →
      res = (Result.empty.merge (some r1)).inc ∧ res.errors = [] := by
    intro r1 hfind h1
    have hloop := oneOfLoop_exactly_one rs r1 hfind h1 none
    have hr1v : r1.isValid = true := by
      simpa using List.find?_some hfind
    have heq : res = (Result.empty.merge (some r1)).inc := by
      rw [hres]
      unfold validateOneOfBlock
      rw [if_neg (by simp [hrs_emp]), hloop]
      norm_num
    refine ⟨heq, ?_⟩
    rw [heq]
    show addErrorsLoop [] r1.errors false = []
    rw [(isValid_iff_errors_nil r1).mp hr1v]
    rfl
  have case2 : 2 ≤ n → res = (Result.empty.addErrors [oneOfMessage s.path n]).inc := by
    intro h2
    rcases hst : oneOfLoop rs none none 0 with ⟨bf, fs, v⟩
    have hbf : bf = none := by
      have := oneOfLoop_some_valid rs (by omega) none
      rw [hst] at this
      exact this
    have hv : v = n := by
      have := oneOfLoop_validated rs none none 0
      rw [hst] at this
      simpa using this
    rw [hres]
    unfold validateOneOfBlock
    rw [if_neg (by simp [hrs_emp]), hst, hbf, hv]
    have : ¬(n = 1) := by omega
    simp [this]
  -- exactly one error with the counting message whenever the count is not one
  have case_count : n ≠ 1 → res.errors.count (oneOfMessage s.path n) = 1 := by
    intro hne1
    rcases Nat.lt_or_ge n 1 with hlt | hge
    · have h0 : n = 0 := by omega
      obtain ⟨b, _, _, _, heq⟩ := case0 h0
      rw [heq, h0]
      show (addErrorsLoop (addErrorsLoop [] [oneOfMessage s.path 0] false)
        b.errors false).count (oneOfMessage s.path 0) = 1
      have h1 : addErrorsLoop [] [oneOfMessage s.path 0] false =
          [oneOfMessage s.path 0] := rfl
      rw [h1, addErrorsLoop_count_of_mem _ _ _ _ (List.mem_singleton_self _)]
      simp
    · have h2 : 2 ≤ n := by omega
      rw [case2 h2]
      show (addErrorsLoop [] [oneOfMessage s.path n] false).count (oneOfMessage s.path n) = 1
      simp [addErrorsLoop]
  -- verdict
  have verdict : res.isValid = true ↔ n = 1 := by
    constructor
    · intro hvalid
      by_contra hne1
      have hcnt := case_count hne1
      have hmem : oneOfMessage s.path n ∈ res.errors := by
        have : 0 < res.errors.count (oneOfMessage s.path n) := by omega
        exact List.count_pos_iff.mp this
      rw [(isValid_iff_errors_nil res).mp hvalid] at hmem
      cases hmem
    · intro h1
      have hfind : ∃ r1, rs.find? (fun r => r.isValid) = some r1 := by
        have hpos : 0 < rs.countP (fun r => r.isValid) := by omega
        obtain ⟨r1, hr1, hv⟩ := List.countP_pos_iff.mp hpos
        have : (rs.find? (fun r => r.isValid)).isSome := by
          rw [List.find?_isSome]
          exact ⟨r1, hr1, hv⟩
        exact Option.isSome_iff_exists.mp this
      obtain ⟨r1, hf⟩ := hfind
      obtain ⟨_, herr⟩ := case1 r1 hf h1
      exact (isValid_iff_errors_nil res).mpr herr
  exact ⟨verdict, case1, case_count, case2, case0⟩

/-- Concrete composition node with two oneOf branches, the second valid,
used as the C1 witness. -/
def oneOfWitnessNode : SchemaPropsValidator Nat :=
  { path := "p"
    anyOfValidators := []
    oneOfValidators := [fun _ => ⟨["bad"], [], 4, []⟩, fun _ => ⟨[], [], 7, []⟩]
    allOfValidators := []
    notValidator := none
    dependencies := [] }

/-- Witness for C1: the oneOf semantics theorem applied to a concrete node
with exactly one valid branch. -/
theorem oneOf_verdict_and_diagnostics_witness :
    let rs := oneOfWitnessNode.oneOfValidators.map (fun v => v 0)
    let res := oneOfWitnessNode.validate 0 none
    let n := rs.countP (fun r => r.isValid)
    (res.isValid = true ↔ n = 1)
    ∧ (∀ r1, rs.find? (fun r => r.isValid) = some r1 → n = 1 →
        res = (Result.empty.merge (some r1)).inc ∧ res.errors = [])
    ∧ (n ≠ 1 → res.errors.count (oneOfMessage oneOfWitnessNode.path n) = 1)
    ∧ (2 ≤ n → res = (Result.empty.addErrors [oneOfMessage oneOfWitnessNode.path n]).inc)
    ∧ (n = 0 → ∃ b, b ∈ rs ∧ b.isValid = false ∧
        (∀ r ∈ rs, r.matchCount ≤ b.matchCount) ∧
        res = ((Result.empty.addErrors
          [oneOfMessage oneOfWitnessNode.path 0]).merge (some b)).inc) :=
  oneOf_verdict_and_diagnostics oneOfWitnessNode 0 none rfl rfl rfl rfl
    (List.cons_ne_nil _ _)

/-- Claim C2 -- anyOf semantics of the composition validator, for a schema
node carrying (only) a non-empty anyOf list: with at least one successful
branch, the first successful branch Result (and only it) is merged and the
verdict is valid; with no successful branch exactly one synthetic
"must validate at least one schema (anyOf)" error is recorded and the failed
branch Result with the highest match count is merged as the failure
detail. -/
theorem anyOf_verdict_and_diagnostics {α : Type} (s : SchemaPropsValidator α)
    (data : α) (mk : Option (List String))
    (hone : s.oneOfValidators = []) (hall : s.allOfValidators = [])
    (hnot : s.notValidator = none) (hdep : s.dependencies = [])
    (hany : s.anyOfValidators ≠ []) :
    let rs := s.anyOfValidators.map (fun v => v data)
    let res := s.validate data mk
    (res.isValid = true ↔ ∃ r ∈ rs, r.isValid = true)
    ∧ (∀ r1, rs.find? (fun r => r.isValid) = some r1 →
        res = (Result.empty.merge (some r1)).inc ∧ res.errors = [])
    ∧ (rs.find? (fun r => r.isValid) = none →
        res.errors.count (anyOfMessage s.path) = 1 ∧
        ∃ b, b ∈ rs ∧ b.isValid = false ∧
          (∀ r ∈ rs, r.matchCount ≤ b.matchCount) ∧
          res = ((Result.empty.addErrors [anyOfMessage s.path]).merge (some b)).inc) := by
  intro rs res
  have hres : res = (validateAnyOfBlock s.path rs Result.empty).inc :=
    validate_anyOf_only s data mk hone hall hnot hdep
  have hrs_ne : rs ≠ [] := by
    intro hnil
    exact hany (List.map_eq_nil_iff.mp hnil)
  have hrs_emp : rs.isEmpty = false := by
    cases hrse : rs with
    | nil => exact absurd hrse hrs_ne
    | cons a l => rfl
  have caseFound : ∀ r1, rs.find? (fun r => r.isValid) = some r1 →
      res = (Result.empty.merge (some r1)).inc ∧ res.errors = [] := by
    intro r1 hfind
    have hloop := anyOfLoop_first_valid rs none r1 hfind
    have hr1v : r1.isValid = true := by
      simpa using List.find?_some hfind
    have heq : res = (Result.empty.merge (some r1)).inc := by
      rw [hres]
      unfold validateAnyOfBlock
      rw [if_neg (by simp [hrs_emp]), hloop]
      norm_num
    refine ⟨heq, ?_⟩
    rw [heq]
    show addErrorsLoop [] r1.errors false = []
    rw [(isValid_iff_errors_nil r1).mp hr1v]
    rfl
  have caseNone : rs.find? (fun r => r.isValid) = none →
      res.errors.count (anyOfMessage s.path) = 1 ∧
      ∃ b, b ∈ rs ∧ b.isValid = false ∧
        (∀ r ∈ rs, r.matchCount ≤ b.matchCount) ∧
        res = ((Result.empty.addErrors [anyOfMessage s.path]).merge (some b)).inc := by
    intro hfind
    have hallinv : ∀ r ∈ rs, r.isValid = false := by
      intro r hr
      have := List.find?_eq_none.mp hfind r hr
      simpa using this
    obtain ⟨b, hb⟩ := foldBest_isSome rs hrs_ne
    have hloop := anyOfLoop_all_invalid rs none hallinv
    rw [hb] at hloop
    have hbmem : b ∈ rs := by
      rcases foldBest_mem rs none b hb with h | h
      · exact h
      · cases h
    have heq :
        res = ((Result.empty.addErrors [anyOfMessage s.path]).merge (some b)).inc := by
      rw [hres]
      unfold validateAnyOfBlock
      rw [if_neg (by simp [hrs_emp]), hloop]
      norm_num
    refine ⟨?_, b, hbmem, hallinv b hbmem, foldBest_max rs none b hb, heq⟩
    rw [heq]
    show (addErrorsLoop (addErrorsLoop [] [anyOfMessage s.path] false)
      b.errors false).count (anyOfMessage s.path) = 1
    have h1 : addErrorsLoop [] [anyOfMessage s.path] false = [anyOfMessage s.path] := rfl
    rw [h1, addErrorsLoop_count_of_mem _ _ _ _ (List.mem_singleton_self _)]
    simp
  have verdict : res.isValid = true ↔ ∃ r ∈ rs, r.isValid = true := by
    constructor
    · intro hvalid
      rcases hfind : rs.find? (fun r => r.isValid) with _ | r1
      · obtain ⟨hcnt, _⟩ := caseNone hfind
        have hmem : anyOfMessage s.path ∈ res.errors := by
          have : 0 < res.errors.count (anyOfMessage s.path) := by omega
          exact List.count_pos_iff.mp this
        rw [(isValid_iff_errors_nil res).mp hvalid] at hmem
        cases hmem
      · exact ⟨r1, List.mem_of_find?_eq_some hfind, by simpa using List.find?_some hfind⟩
    · intro ⟨r0, hr0, hv0⟩
      have hsome : (rs.find? (fun r => r.isValid)).isSome := by
        rw [List.find?_isSome]
        exact ⟨r0, hr0, hv0⟩
      obtain ⟨r1, hfind⟩ := Option.isSome_iff_exists.mp hsome
      obtain ⟨_, herr⟩ := caseFound r1 hfind
      exact (isValid_iff_errors_nil res).mpr herr
  exact ⟨verdict, caseFound, caseNone⟩

/-- Concrete composition node with three anyOf branches, none valid, used as
the C2 witness. -/
def anyOfWitnessNode : SchemaPropsValidator Nat :=
  { path := "q"
    anyOfValidators :=
      [fun _ => ⟨["e1"], [], 3, []⟩, fun _ => ⟨["e2"], [], 5, []⟩,
       fun _ => ⟨["e3"], [], 4, []⟩]
    oneOfValidators := []
    allOfValidators := []
    notValidator := none
    dependencies := [] }

/-- Witness for C2: the anyOf semantics theorem applied to a concrete node
with no valid branch. -/
theorem anyOf_verdict_and_diagnostics_witness :
    let rs := anyOfWitnessNode.anyOfValidators.map (fun v => v 0)
    let res := anyOfWitnessNode.validate 0 none
    (res.isValid = true ↔ ∃ r ∈ rs, r.isValid = true)
    ∧ (∀ r1, rs.find? (fun r => r.isValid) = some r1 →
        res = (Result.empty.merge (some r1)).inc ∧ res.errors = [])
    ∧ (rs.find? (fun r => r.isValid) = none →
        res.errors.count (anyOfMessage anyOfWitnessNode.path) = 1 ∧
        ∃ b, b ∈ rs ∧ b.isValid = false ∧
          (∀ r ∈ rs, r.matchCount ≤ b.matchCount) ∧
          res = ((Result.empty.addErrors
            [anyOfMessage anyOfWitnessNode.path]).merge (some b)).inc) :=
  anyOf_verdict_and_diagnostics anyOfWitnessNode 0 none rfl rfl rfl rfl
    (List.cons_ne_nil _ _)

section MatchCountAccounting

/-- Inc adds one to the match count. -/
theorem inc_matchCount (r : Result) : r.inc.matchCount = r.matchCount + 1 := rfl

/-- Match count of the single branch Result merged by the anyOf block (best
failure if any, otherwise the first success), zero when nothing is merged. -/
def anyOfMergedCount (rs : List Result) : Nat :=
  if rs.isEmpty then 0
  else
    match anyOfLoop rs none with
    | (some b, _, _) => b.matchCount
    | (none, some f, _) => f.matchCount
    | (none, none, _) => 0

/-- Match count of the single branch Result merged by the oneOf block. -/
def oneOfMergedCount (rs : List Result) : Nat :=
  if rs.isEmpty then 0
  else
    match oneOfLoop rs none none 0 with
    | (bf, fs, v) =>
      if v ≠ 1 then
        match bf with
        | some b => b.matchCount
        | none => 0
      else
        match fs with
        | some f => f.matchCount
        | none => 0

/-- Match count merged by the allOf block: every branch Result is merged. -/
def allOfMergedCount (rs : List Result) : Nat := (rs.map Result.matchCount).sum

/-- Match count merged by the dependencies block: one whole-value validation
per map key carrying a schema dependency. -/
def dependenciesMergedCount {α : Type} (deps : List (String × Dependency α))
    (data : α) (iter : List String) : Nat :=
  match iter with
  | [] => 0
  | key :: rest =>
    (match lookupDependency deps key with
     | some (Dependency.schema v) => (v data).matchCount
     | _ => 0) + dependenciesMergedCount deps data rest

/-- Total match count merged from branch Results by one run of the
composition validator. -/
def mergedBranchMatchCount {α : Type} (s : SchemaPropsValidator α) (data : α)
    (mk : Option (List String)) : Nat :=
  anyOfMergedCount (s.anyOfValidators.map (fun v => v data)) +
    oneOfMergedCount (s.oneOfValidators.map (fun v => v data)) +
    allOfMergedCount (s.allOfValidators.map (fun v => v data)) +
    (match mk with
     | some keys =>
       if s.dependencies.isEmpty then 0
       else dependenciesMergedCount s.dependencies data keys
     | none => 0)

/-- The anyOf block adds exactly the merged branch match count. -/
theorem validateAnyOfBlock_matchCount (p : String) (rs : List Result) (main : Result) :
    (validateAnyOfBlock p rs main).matchCount = main.matchCount + anyOfMergedCount rs := by
  unfold validateAnyOfBlock anyOfMergedCount
  by_cases he : rs.isEmpty
  · simp [he]
  · rw [if_neg he, if_neg he]
    rcases hst : anyOfLoop rs none with ⟨bf, fs, succ⟩
    cases bf with
    | some b =>
      cases succ <;> simp [Result.merge, Result.addErrors, Result.addWarnings]
    | none =>
      cases fs with
      | some f =>
        cases succ <;> simp [Result.merge, Result.addErrors, Result.addWarnings]
      | none =>
        cases succ <;> simp [Result.addErrors]

/-- The oneOf block adds exactly the merged branch match count. -/
theorem validateOneOfBlock_matchCount (p : String) (rs : List Result) (main : Result) :
    (validateOneOfBlock p rs main).matchCount = main.matchCount + oneOfMergedCount rs := by
  unfold validateOneOfBlock oneOfMergedCount
  by_cases he : rs.isEmpty
  · simp [he]
  · rw [if_neg he, if_neg he]
    rcases hst : oneOfLoop rs none none 0 with ⟨bf, fs, v⟩
    dsimp only
    by_cases hv : v ≠ 1
    · rw [if_pos hv, if_pos hv]
      cases bf with
      | some b => simp [Result.merge, Result.addErrors, Result.addWarnings]
      | none => simp [Result.addErrors]
    · rw [if_neg hv, if_neg hv]
      cases fs with
      | some f => simp [Result.merge, Result.addErrors, Result.addWarnings]
      | none => simp

/-- The allOf loop accumulates the match counts of every branch Result. -/
theorem allOfLoop_matchCount (rs : List Result) (main : Result) (v : Nat) :
    (allOfLoop rs main v).1.matchCount = main.matchCount + allOfMergedCount rs := by
  induction rs generalizing main v with
  | nil => simp [allOfLoop, allOfMergedCount]
  | cons r rest ih =>
    show (allOfLoop rest (main.merge (some r)) _).1.matchCount = _
    rw [ih]
    simp [Result.merge, Result.addErrors, Result.addWarnings, allOfMergedCount]
    omega

/-- The allOf block adds exactly the merged branch match counts. -/
theorem validateAllOfBlock_matchCount (p : String) (rs : List Result) (main : Result) :
    (validateAllOfBlock p rs main).matchCount = main.matchCount + allOfMergedCount rs := by
  unfold validateAllOfBlock
  by_cases he : rs.isEmpty
  · rw [if_pos he]
    have : rs = [] := by
      cases rs with
      | nil => rfl
      | cons a l => cases he
    rw [this]
    simp [allOfMergedCount]
  · rw [if_neg he]
    by_cases hn : (allOfLoop rs main 0).2 ≠ rs.length
    · rw [if_pos hn, addErrors_matchCount, allOfLoop_matchCount]
    · rw [if_neg hn, allOfLoop_matchCount]

/-- The not block never changes the match count (the wrapped Result is not
merged). -/
theorem validateNotBlock_matchCount (p : String) (ro : Option Result) (main : Result) :
    (validateNotBlock p ro main).matchCount = main.matchCount := by
  cases ro with
  | none => rfl
  | some r =>
    show (if r.isValid then main.addErrors [notMessage p] else main).matchCount =
      main.matchCount
    by_cases hv : r.isValid
    · rw [if_pos hv, addErrors_matchCount]
    · rw [if_neg hv]

/-- The property-dependency loop never changes the match count (it only adds
errors). -/
theorem propertyDependencyLoop_matchCount (p : String) (allKeys props : List String)
    (main : Result) :
    (propertyDependencyLoop p allKeys props main).matchCount = main.matchCount := by
  induction props generalizing main with
  | nil => rfl
  | cons q rest ih =>
    show (propertyDependencyLoop p allKeys rest _).matchCount = _
    rw [ih]
    by_cases hc : allKeys.contains q
    · rw [if_pos hc]
    · rw [if_neg hc, addErrors_matchCount]

/-- The dependencies block adds exactly the match counts of the merged
schema-dependency validations. -/
theorem dependenciesMergedCount_cons {α : Type} (deps : List (String × Dependency α))
    (data : α) (key : String) (rest : List String) :
    dependenciesMergedCount deps data (key :: rest) =
      (match lookupDependency deps key with
       | some (Dependency.schema v) => (v data).matchCount
       | _ => 0) + dependenciesMergedCount deps data rest := rfl

theorem dependenciesLoop_matchCount {α : Type} (p : String)
    (deps : List (String × Dependency α)) (data : α) (allKeys iter : List String)
    (main : Result) :
    (dependenciesLoop p deps data allKeys iter main).matchCount =
      main.matchCount + dependenciesMergedCount deps data iter := by
  induction iter generalizing main with
  | nil => simp [dependenciesLoop, dependenciesMergedCount]
  | cons key rest ih =>
    show (dependenciesLoop p deps data allKeys rest
      (match lookupDependency deps key with
       | none => main
       | some (Dependency.schema v) => main.merge (some (v data))
       | some (Dependency.property props) =>
         propertyDependencyLoop p allKeys props main)).matchCount = _
    rw [ih, dependenciesMergedCount_cons]
    rcases hl : lookupDependency deps key with _ | d
    · simp
    · cases d with
      | schema v =>
        simp only [Result.merge, Result.addErrors, Result.addWarnings]
        omega
      | property props => simp [propertyDependencyLoop_matchCount]

/-- Claim C3 (amended) -- every run of the composition validator increments
the returned match count by exactly one over the match counts it merged from
branch Results, whether or not the run succeeded: the final Inc of Validate
is unconditional. -/
theorem validate_matchCount_increment {α : Type} (s : SchemaPropsValidator α)
    (data : α) (mk : Option (List String)) :
    (s.validate data mk).matchCount = mergedBranchMatchCount s data mk + 1 := by
  cases mk with
  | none =>
    simp only [SchemaPropsValidator.validate, mergedBranchMatchCount, Result.empty,
      inc_matchCount, validateNotBlock_matchCount, validateAllOfBlock_matchCount,
      validateOneOfBlock_matchCount, validateAnyOfBlock_matchCount]
    ring
  | some keys =>
    by_cases hd : s.dependencies.isEmpty
    · simp only [SchemaPropsValidator.validate, mergedBranchMatchCount, Result.empty,
        hd, if_true, inc_matchCount, validateNotBlock_matchCount,
        validateAllOfBlock_matchCount, validateOneOfBlock_matchCount,
        validateAnyOfBlock_matchCount]
      ring
    · have hd2 : s.dependencies.isEmpty = false := by
        cases hb : s.dependencies.isEmpty
        · rfl
        · exact absurd hb hd
      simp only [SchemaPropsValidator.validate, mergedBranchMatchCount, Result.empty,
        hd2, Bool.false_eq_true, if_false, inc_matchCount,
        dependenciesLoop_matchCount, validateNotBlock_matchCount,
        validateAllOfBlock_matchCount, validateOneOfBlock_matchCount,
        validateAnyOfBlock_matchCount]
      ring

end MatchCountAccounting

/-- Concrete composition node whose not combinator fails (the wrapped schema
validates), used to show that a failed run still increments the match
count. -/
def notFailNode : SchemaPropsValidator Nat :=
  { path := "p"
    anyOfValidators := []
    oneOfValidators := []
    allOfValidators := []
    notValidator := some (fun _ => Result.empty)
    dependencies := [] }

/-- Counterexample for C3 -- a failed composition run still increments the
match count: this run records the not-combinator error (so it did not
succeed), merges nothing, and still returns match count 1, not 0. -/
theorem failed_run_still_increments :
    notFailNode.validate 0 none =
      { errors := [notMessage "p"], warnings := [], matchCount := 1, defaulters := [] }
    ∧ (notFailNode.validate 0 none).isValid = false
    ∧ mergedBranchMatchCount notFailNode 0 none = 0 := by
  refine ⟨rfl, rfl, rfl⟩

/-! ### Duplicate operation identifiers (SpecValidator.validateDuplicateOperationIDs)

Shallow embedding of validateDuplicateOperationIDs (src/spec.go lines
170-184, old variant lines 930-944, identical logic): count the non-empty
operation identifiers returned by the analyzer into the `known` map, then
report one error per identifier declared more than once.  Go iterates the
`known` map with the unspecified order of a map range loop; the embedding
passes the entries in that order explicitly (`iter`), constrained in the
theorems to be a permutation of the built map. -/

/-- Go %q quoting of an identifier (the formatting collaborator of the
message "%q is defined %d times"), modelled for the string escapes the
identifiers at issue can contain. -/
def goQuote (str : String) : String :=
  "\"" ++ String.join (str.data.map (fun c =>
    if c = Char.ofNat 34 then "\\\""
    else if c = Char.ofNat 92 then "\\\\"
    else String.singleton c)) ++ "\""

/-- Message of a duplicate operation identifier, "%q is defined %d times". -/
def duplicateOperationIDMessage (k : String) (n : Nat) : String :=
  goQuote k ++ " is defined " ++ toString n ++ " times"

/-- One step of building the `known` count map: known[v]++ (first entry with
that key incremented, or a new entry appended). -/
def bumpKnown (known : List (String × Nat)) (v : String) : List (String × Nat) :=
  match known with
  | [] => [(v, 1)]
  | (k, n) :: rest => if k == v then (k, n + 1) :: rest else (k, n) :: bumpKnown rest v

/-- The `known` map of validateDuplicateOperationIDs: count every non-empty
identifier. -/
def knownOf (ids : List String) : List (String × Nat) :=
  ids.foldl (fun acc v => if v == "" then acc else bumpKnown acc v) []

/-- Association lookup in the `known` map. -/
def assocLookup (l : List (String × Nat)) (k : String) : Option Nat :=
  match l with
  | [] => none
  | (k0, v) :: rest => if k0 == k then some v else assocLookup rest k

/-- Shallow embedding of validateDuplicateOperationIDs: `iter` holds the
entries of the `known` count map (knownOf of the analyzer identifier list)
in the order Go map iteration yields them; one error per identifier counted
more than once. -/
def validateDuplicateOperationIDs (iter : List (String × Nat)) : Result :=
  iter.foldl
    (fun res kv =>
      if kv.2 > 1 then res.addErrors [duplicateOperationIDMessage kv.1 kv.2]
      else res)
    Result.empty

section DuplicateOperationIDLemmas

/-- bumpKnown increments the looked-up count of the bumped key. -/
theorem assocLookup_bumpKnown_self (known : List (String × Nat)) (v : String) :
    assocLookup (bumpKnown known v) v = some ((assocLookup known v).getD 0 + 1) := by
  induction known with
  | nil => simp [bumpKnown, assocLookup]
  | cons kv rest ih =>
    rcases kv with ⟨k0, n0⟩
    by_cases h0 : k0 = v
    · subst h0
      simp [bumpKnown, assocLookup]
    · simp only [bumpKnown]
      rw [if_neg (by simpa using h0)]
      simp only [assocLookup]
      rw [if_neg (by simpa using h0), if_neg (by simpa using h0), ih]

/-- bumpKnown leaves the looked-up count of every other key unchanged. -/
theorem assocLookup_bumpKnown_other (known : List (String × Nat)) (v k : String)
    (hne : ¬(v = k)) :
    assocLookup (bumpKnown known v) k = assocLookup known k := by
  induction known with
  | nil =>
    simp only [bumpKnown, assocLookup]
    rw [if_neg (by simpa using hne)]
  | cons kv rest ih =>
    rcases kv with ⟨k0, n0⟩
    by_cases h0 : k0 = v
    · subst h0
      have hk : ¬(k0 = k) := hne
      simp only [bumpKnown, beq_self_eq_true, if_true, assocLookup]
      rw [if_neg (by simpa using hk), if_neg (by simpa using hk)]
    · simp only [bumpKnown]
      rw [if_neg (by simpa using h0)]
      simp only [assocLookup]
      by_cases hk : k0 = k
      · rw [if_pos (by simpa using hk), if_pos (by simpa using hk)]
      · rw [if_neg (by simpa using hk), if_neg (by simpa using hk), ih]

/-- Folding identifier counting accumulates exactly the number of occurrences
of every non-empty identifier. -/
theorem assocLookup_knownFold (rest : List String) (acc : List (String × Nat))
    (id : String) (hid : id ≠ "") :
    (assocLookup (rest.foldl (fun a v => if v == "" then a else bumpKnown a v) acc)
        id).getD 0 =
      (assocLookup acc id).getD 0 + rest.count id := by
  induction rest generalizing acc with
  | nil => simp
  | cons v rest ih =>
    rw [List.foldl_cons, List.count_cons]
    by_cases hv : v = ""
    · have hvid : ¬(id = v) := by
        intro h
        exact hid (h.trans hv)
      rw [if_pos (by simpa using hv), ih]
      have : ¬(v = id) := fun h => hvid h.symm
      simp [this]
    · rw [if_neg (by simpa using hv), ih]
      by_cases hvi : v = id
      · subst hvi
        rw [assocLookup_bumpKnown_self]
        simp
        omega
      · rw [assocLookup_bumpKnown_other acc v id hvi]
        simp [hvi]

/-- assocLookup only returns entries of the list. -/
theorem assocLookup_mem (l : List (String × Nat)) (k : String) (n : Nat)
    (h : assocLookup l k = some n) : (k, n) ∈ l := by
  induction l with
  | nil => cases h
  | cons kv rest ih =>
    rcases kv with ⟨k0, n0⟩
    simp only [assocLookup] at h
    by_cases hk : k0 = k
    · rw [if_pos (by simpa using hk)] at h
      cases h
      subst hk
      exact List.mem_cons_self _ _
    · rw [if_neg (by simpa using hk)] at h
      exact List.mem_cons_of_mem _ (ih h)

/-- A non-empty identifier counted n > 0 times appears in the known map with
exactly that count. -/
theorem knownOf_mem (ids : List String) (id : String) (hid : id ≠ "")
    (hpos : 0 < ids.count id) : (id, ids.count id) ∈ knownOf ids := by
  have h := assocLookup_knownFold ids [] id hid
  simp only [assocLookup, Option.getD_none, Nat.zero_add] at h
  rcases hl : assocLookup (knownOf ids) id with _ | n
  · rw [knownOf] at hl
    rw [hl] at h
    simp at h
    omega
  · rw [knownOf] at hl
    rw [hl] at h
    simp at h
    rw [← h]
    exact assocLookup_mem _ _ _ (by rw [knownOf]; exact hl)

/-- Membership of a message after extending a Result by one AddErrors call
with a single argument. -/
theorem addErrors_single_mem (res : Result) (e m : String) :
    m ∈ (res.addErrors [e]).errors ↔ m ∈ res.errors ∨ m = e := by
  show m ∈ addErrorsLoop res.errors [e] false ↔ _
  rw [addErrorsLoop_single]
  by_cases hc : res.errors.contains e
  · rw [if_pos hc]
    constructor
    · exact Or.inl
    · intro h
      rcases h with h | h
      · exact h
      · subst h
        simpa using hc
  · rw [if_neg hc]
    simp

/-- Which messages the duplicate-identifier report loop produces: exactly one
per iterated entry counted more than once, on top of the accumulated
Result. -/
theorem dupIDFold_mem (iter : List (String × Nat)) (res : Result) (m : String) :
    m ∈ ((iter.foldl
        (fun res kv =>
          if kv.2 > 1 then res.addErrors [duplicateOperationIDMessage kv.1 kv.2]
          else res) res).errors) ↔
      m ∈ res.errors ∨
        ∃ kv, kv ∈ iter ∧ kv.2 > 1 ∧ m = duplicateOperationIDMessage kv.1 kv.2 := by
  induction iter generalizing res with
  | nil => simp
  | cons kv rest ih =>
    rw [List.foldl_cons]
    by_cases hgt : kv.2 > 1
    · rw [if_pos hgt, ih, addErrors_single_mem]
      constructor
      · intro h
        rcases h with (h | h) | ⟨kv2, hmem, hgt2, heq⟩
        · exact Or.inl h
        · exact Or.inr ⟨kv, List.mem_cons_self _ _, hgt, h⟩
        · exact Or.inr ⟨kv2, List.mem_cons_of_mem _ hmem, hgt2, heq⟩
      · intro h
        rcases h with h | ⟨kv2, hmem, hgt2, heq⟩
        · exact Or.inl (Or.inl h)
        · rcases List.mem_cons.mp hmem with h2 | h2
          · subst h2
            exact Or.inl (Or.inr heq)
          · exact Or.inr ⟨kv2, h2, hgt2, heq⟩
    · rw [if_neg hgt, ih]
      constructor
      · intro h
        rcases h with h | ⟨kv2, hmem, hgt2, heq⟩
        · exact Or.inl h
        · exact Or.inr ⟨kv2, List.mem_cons_of_mem _ hmem, hgt2, heq⟩
      · intro h
        rcases h with h | ⟨kv2, hmem, hgt2, heq⟩
        · exact Or.inl h
        · rcases List.mem_cons.mp hmem with h2 | h2
          · subst h2
            exact absurd hgt2 hgt
          · exact Or.inr ⟨kv2, h2, hgt2, heq⟩

/-- The duplicate-identifier report loop preserves the no-duplicate-messages
invariant. -/
theorem dupIDFold_nodup (iter : List (String × Nat)) (res : Result)
    (h : res.errors.Nodup) :
    ((iter.foldl
        (fun res kv =>
          if kv.2 > 1 then res.addErrors [duplicateOperationIDMessage kv.1 kv.2]
          else res) res).errors).Nodup := by
  induction iter generalizing res with
  | nil => exact h
  | cons kv rest ih =>
    rw [List.foldl_cons]
    by_cases hgt : kv.2 > 1
    · rw [if_pos hgt]
      exact ih _ (addErrorsLoop_nodup _ _ _ h)
    · rw [if_neg hgt]
      exact ih _ h

end DuplicateOperationIDLemmas

/-- Claim C7 -- a non-empty operation identifier declared n >= 2 times yields
exactly one duplicate-identifier error, whose message is the identifier and
its count in the shape of "%q is defined %d times"; this holds for every
iteration order of the known map. -/
theorem duplicate_operation_ids_reported_once (ids : List String)
    (iter : List (String × Nat)) (id : String) (n : Nat)
    (hid : id ≠ "") (hcount : ids.count id = n) (hn : 2 ≤ n)
    (hperm : iter.Perm (knownOf ids)) :
    ((validateDuplicateOperationIDs iter).errors).count
      (duplicateOperationIDMessage id n) = 1 := by
  have hmem_known : (id, n) ∈ knownOf ids := by
    rw [← hcount]
    exact knownOf_mem ids id hid (by omega)
  have hmem_iter : (id, n) ∈ iter := hperm.mem_iff.mpr hmem_known
  have hmem : duplicateOperationIDMessage id n ∈
      (validateDuplicateOperationIDs iter).errors := by
    rw [validateDuplicateOperationIDs, dupIDFold_mem]
    exact Or.inr ⟨(id, n), hmem_iter, by omega, rfl⟩
  have hnd : ((validateDuplicateOperationIDs iter).errors).Nodup :=
    dupIDFold_nodup iter Result.empty List.nodup_nil
  have h1 : 0 < ((validateDuplicateOperationIDs iter).errors).count
      (duplicateOperationIDMessage id n) := List.count_pos_iff.mpr hmem
  have h2 := List.nodup_iff_count_le_one.mp hnd (duplicateOperationIDMessage id n)
  omega

/-- Witness for C7: a document whose two operations are both named "listPets"
yields exactly one error built from "listPets" and 2. -/
theorem duplicate_operation_ids_reported_once_witness :
    (("listPets" : String) ≠ "") ∧
      (["listPets", "listPets"].count "listPets" = 2) ∧
      (List.Perm [("listPets", 2)] (knownOf ["listPets", "listPets"])) ∧
      ((validateDuplicateOperationIDs [("listPets", 2)]).errors).count
        (duplicateOperationIDMessage "listPets" 2) = 1 :=
  ⟨by decide, by decide, by decide,
    duplicate_operation_ids_reported_once ["listPets", "listPets"]
      [("listPets", 2)] "listPets" 2 (by decide) (by decide) (by decide) (by decide)⟩

/-- Concrete composition node with two property dependencies, used to exhibit
the map-iteration-order dependence of the produced error order. -/
def depOrderNode : SchemaPropsValidator Nat :=
  { path := "data"
    anyOfValidators := []
    oneOfValidators := []
    allOfValidators := []
    notValidator := none
    dependencies :=
      [("a", Dependency.property ["x"]), ("b", Dependency.property ["y"])] }

/-- Counterexample for C8 -- validation is not a deterministic function of
(schema, value, options): validating the same value map (keys a and b, a
permutation pair of Go map iteration orders) under the same dependencies
schema produces the two dependency errors in different relative order. -/
theorem dependencies_error_order_not_deterministic :
    (List.Perm ["a", "b"] ["b", "a"]) ∧
      depOrderNode.validate 0 (some ["a", "b"]) ≠
        depOrderNode.validate 0 (some ["b", "a"]) ∧
      (depOrderNode.validate 0 (some ["a", "b"])).errors =
        [dependencyMessage "data" "x", dependencyMessage "data" "y"] ∧
      (depOrderNode.validate 0 (some ["b", "a"])).errors =
        [dependencyMessage "data" "y", dependencyMessage "data" "x"] := by
  refine ⟨List.Perm.swap "b" "a" [], ?_, rfl, rfl⟩
  intro h
  have := congrArg Result.errors h
  simp only [show (depOrderNode.validate 0 (some ["a", "b"])).errors =
    [dependencyMessage "data" "x", dependencyMessage "data" "y"] from rfl,
    show (depOrderNode.validate 0 (some ["b", "a"])).errors =
    [dependencyMessage "data" "y", dependencyMessage "data" "x"] from rfl] at this
  exact absurd this (by decide)

/-- Claim C8 (amended) -- determinism up to Go map iteration order for the
duplicate-identifier check: any two iteration orders of the known map
produce the same error multiset (the relative order may differ, as the
counterexample shows). -/
theorem duplicate_operation_ids_order_independent_multiset (ids : List String)
    (iter1 iter2 : List (String × Nat))
    (h1 : iter1.Perm (knownOf ids)) (h2 : iter2.Perm (knownOf ids)) :
    ((validateDuplicateOperationIDs iter1).errors).Perm
      ((validateDuplicateOperationIDs iter2).errors) := by
  have hnd1 : ((validateDuplicateOperationIDs iter1).errors).Nodup :=
    dupIDFold_nodup iter1 Result.empty List.nodup_nil
  have hnd2 : ((validateDuplicateOperationIDs iter2).errors).Nodup :=
    dupIDFold_nodup iter2 Result.empty List.nodup_nil
  rw [List.perm_ext_iff_of_nodup hnd1 hnd2]
  intro m
  rw [validateDuplicateOperationIDs, validateDuplicateOperationIDs,
    dupIDFold_mem, dupIDFold_mem]
  constructor
  · intro h
    rcases h with h | ⟨kv, hmem, hgt, heq⟩
    · cases h
    · exact Or.inr ⟨kv, h2.mem_iff.mpr (h1.mem_iff.mp hmem), hgt, heq⟩
  · intro h
    rcases h with h | ⟨kv, hmem, hgt, heq⟩
    · cases h
    · exact Or.inr ⟨kv, h1.mem_iff.mpr (h2.mem_iff.mp hmem), hgt, heq⟩

/-- Witness for the amended C8: the two-duplicate document, two iteration
orders, same error multiset. -/
theorem duplicate_operation_ids_order_independent_multiset_witness :
    (List.Perm [("a", 2), ("b", 2)] (knownOf ["a", "a", "b", "b"])) ∧
      (List.Perm [("b", 2), ("a", 2)] (knownOf ["a", "a", "b", "b"])) ∧
      ((validateDuplicateOperationIDs [("a", 2), ("b", 2)]).errors).Perm
        ((validateDuplicateOperationIDs [("b", 2), ("a", 2)]).errors) :=
  ⟨by decide, by decide,
    duplicate_operation_ids_order_independent_multiset ["a", "a", "b", "b"]
      [("a", 2), ("b", 2)] [("b", 2), ("a", 2)] (by decide) (by decide)⟩

/-! ### The duplicate-property walk and $ref resolution failures

`spec.go` under src/ carries two variants of
SpecValidator.validateSchemaPropertyNames.  The newer one (lines 237-275)
converts a failed $ref resolution into one diagnostic on the affected node
via errorHelp.addPointerError and returns normally; the older one (lines
991-1023) executes panic(err) instead, propagating the failure out of the
walk.  The external resolver (spec.ResolveRef) is passed as a function that
may fail with an error message.  The walk can chase an unbounded chain of
refs, so it is embedded with a fuel argument (`none` = fuel exhausted, which
a theorem only avoids by supplying enough fuel). -/

/-- Schema tree as seen by the duplicate-property walk: its $ref string
(empty when absent), its allOf children, and its property names. -/
inductive GoSchema where
  | mk (ref : String) (allOf : List GoSchema) (properties : List String)

/-- The $ref string of the schema. -/
def GoSchema.ref : GoSchema → String
  | GoSchema.mk r _ _ => r

/-- The allOf children of the schema. -/
def GoSchema.allOf : GoSchema → List GoSchema
  | GoSchema.mk _ a _ => a

/-- The property names of the schema. -/
def GoSchema.properties : GoSchema → List String
  | GoSchema.mk _ _ p => p

/-- A duplicate property found by the walk (type dupProp of src/spec.go). -/
structure DupProp where
  name : String
  definition : String
  deriving Repr, DecidableEq

/-- Message of errorHelp.addPointerError.  Modelled from the spec and the
repository test (src/helpers_test.go expects "could not resolve reference in
path to $ref my ref: my error"); helpers.go itself is not under src/. -/
def pointerErrorMessage (fromPath ref err : String) : String :=
  "could not resolve reference in " ++ fromPath ++ " to $ref " ++ ref ++ ": " ++ err

/-- The ref-chasing loop heading both walk variants
(for schc.Ref.String() != "" { resolveRef ... }): returns the resolved
schema, or the failing ref together with the resolver error, or none when
the fuel runs out (a ref cycle). -/
def followRef (resolve : String → Except String GoSchema) :
    Nat → GoSchema → Option (Except (String × String) GoSchema)
  | 0, _ => none
  | Nat.succ fuel, sch =>
    if sch.ref == "" then some (Except.ok sch)
    else
      match resolve sch.ref with
      | Except.error e => some (Except.error (sch.ref, e))
      | Except.ok reso => followRef resolve fuel reso

/-- The property-name accumulation loop of the walk (for k := range
schc.Properties): a property name already known is a duplicate, otherwise it
is recorded. -/
def propWalk (schn : String) (props knowns : List String) (dups : List DupProp) :
    List DupProp × List String :=
  match props with
  | [] => (dups, knowns)
  | k :: rest =>
    if knowns.contains k then
      propWalk schn rest knowns (dups ++ [DupProp.mk k schn])
    else
      propWalk schn rest (knowns ++ [k]) dups

mutual

/-- Shallow embedding of the newer SpecValidator.validateSchemaPropertyNames
(src/spec.go lines 237-275): on a failed $ref resolution it records one
pointer error in the returned Result and returns normally. -/
def validateSchemaPropertyNames (resolve : String → Except String GoSchema) :
    Nat → String → GoSchema → List String →
      Option (List DupProp × Result × List String)
  | 0, _, _, _ => none
  | Nat.succ fuel, nm, sch, knowns =>
    match followRef resolve (Nat.succ fuel) sch with
    | none => none
    | some (Except.error (fref, e)) =>
      some ([], Result.empty.addErrors [pointerErrorMessage nm fref e], knowns)
    | some (Except.ok schc) =>
      let schn := if sch.ref == "" then nm else sch.ref
      if schc.allOf.isEmpty then
        let pw := propWalk schn schc.properties knowns []
        some (pw.1, Result.empty, pw.2)
      else
        allOfPropertyNames resolve fuel schn schc.allOf knowns [] Result.empty

/-- Child loop of the newer walk over the allOf branches, accumulating
duplicates and merging each child Result that has errors or warnings. -/
def allOfPropertyNames (resolve : String → Except String GoSchema) :
    Nat → String → List GoSchema → List String → List DupProp → Result →
      Option (List DupProp × Result × List String)
  | 0, _, _, _, _, _ => none
  | Nat.succ fuel, schn, children, knowns, dups, res =>
    match children with
    | [] => some (dups, res, knowns)
    | chld :: rest =>
      match validateSchemaPropertyNames resolve fuel schn chld knowns with
      | none => none
      | some (dup, rep, knowns1) =>
        let res1 :=
          if rep.hasErrors || rep.hasWarnings then res.merge (some rep) else res
        allOfPropertyNames resolve fuel schn rest knowns1 (dups ++ dup) res1

end

mutual

/-- Shallow embedding of the older SpecValidator.validateSchemaPropertyNames
(src/spec.go lines 991-1023): a failed $ref resolution executes panic(err),
modelled as an Except.error escaping the whole walk. -/
def validateSchemaPropertyNamesOld (resolve : String → Except String GoSchema) :
    Nat → String → GoSchema → List String →
      Option (Except String (List DupProp × List String))
  | 0, _, _, _ => none
  | Nat.succ fuel, nm, sch, knowns =>
    match followRef resolve (Nat.succ fuel) sch with
    | none => none
    | some (Except.error (_, e)) => some (Except.error e)
    | some (Except.ok schc) =>
      let schn := if sch.ref == "" then nm else sch.ref
      if schc.allOf.isEmpty then
        some (Except.ok (propWalk schn schc.properties knowns []))
      else
        allOfPropertyNamesOld resolve fuel schn schc.allOf knowns []

/-- Child loop of the older walk: a panic in any child unwinds through the
loop. -/
def allOfPropertyNamesOld (resolve : String → Except String GoSchema) :
    Nat → String → List GoSchema → List String → List DupProp →
      Option (Except String (List DupProp × List String))
  | 0, _, _, _, _ => none
  | Nat.succ fuel, schn, children, knowns, dups =>
    match children with
    | [] => some (Except.ok (dups, knowns))
    | chld :: rest =>
      match validateSchemaPropertyNamesOld resolve fuel schn chld knowns with
      | none => none
      | some (Except.error e) => some (Except.error e)
      | some (Except.ok (dup, knowns1)) =>
        allOfPropertyNamesOld resolve fuel schn rest knowns1 (dups ++ dup)

end

/-- Schema consisting of one dangling $ref, as in TestSchemaValidator_Panic
(src/jsonschema_test.go lines 437-457). -/
def danglingRefSchema : GoSchema := GoSchema.mk "#/pointer-to-nowhere" [] []

/-- Resolver that fails on every reference, as resolving against a document
without that pointer does. -/
def failingResolver : String → Except String GoSchema :=
  fun r => Except.error ("object has no key " ++ goQuote r)

/-- Counterexample for C5 -- the older duplicate-property walk does not
convert an unresolvable $ref into a diagnostic: it panics (the resolver
error escapes the walk), on a plain dangling reference that is ordinary bad
data, not a nil root schema. -/
theorem ref_walk_old_panics :
    validateSchemaPropertyNamesOld failingResolver 5 "D" danglingRefSchema [] =
      some (Except.error ("object has no key " ++ goQuote "#/pointer-to-nowhere")) := by
  rfl

/-- Claim C5 (amended) -- the newer duplicate-property walk converts a failed
$ref resolution into exactly one pointer-error diagnostic on the affected
node and returns normally, leaving the known-property set unchanged. -/
theorem ref_walk_new_single_diagnostic (resolve : String → Except String GoSchema)
    (fuel : Nat) (nm : String) (sch : GoSchema) (knowns : List String) (e : String)
    (hfuel : 0 < fuel) (href : sch.ref ≠ "")
    (hres : resolve sch.ref = Except.error e) :
    validateSchemaPropertyNames resolve fuel nm sch knowns =
      some ([], Result.empty.addErrors [pointerErrorMessage nm sch.ref e], knowns)
    ∧ (Result.empty.addErrors [pointerErrorMessage nm sch.ref e]).errors =
        [pointerErrorMessage nm sch.ref e] := by
  rcases fuel with _ | fuel
  · omega
  · constructor
    · show (match followRef resolve (Nat.succ fuel) sch with
        | none => none
        | some (Except.error (fref, e)) =>
          some ([], Result.empty.addErrors [pointerErrorMessage nm fref e], knowns)
        | some (Except.ok schc) =>
          let schn := if sch.ref == "" then nm else sch.ref
          if schc.allOf.isEmpty then
            let pw := propWalk schn schc.properties knowns []
            some (pw.1, Result.empty, pw.2)
          else
            allOfPropertyNames resolve fuel schn schc.allOf knowns [] Result.empty) = _
      have hfr : followRef resolve (Nat.succ fuel) sch =
          some (Except.error (sch.ref, e)) := by
        show (if sch.ref == "" then some (Except.ok sch)
          else
            match resolve sch.ref with
            | Except.error e => some (Except.error (sch.ref, e))
            | Except.ok reso => followRef resolve fuel reso) = _
        rw [if_neg (by simpa using href), hres]
      rw [hfr]
    · rfl

/-- Witness for the amended C5: the concrete dangling reference of the
repository's own panic test, walked by the newer variant. -/
theorem ref_walk_new_single_diagnostic_witness :
    (0 < 5) ∧ (danglingRefSchema.ref ≠ "") ∧
      (failingResolver danglingRefSchema.ref =
        Except.error ("object has no key " ++ goQuote "#/pointer-to-nowhere")) ∧
      (validateSchemaPropertyNames failingResolver 5 "D" danglingRefSchema [] =
        some ([], Result.empty.addErrors
          [pointerErrorMessage "D" danglingRefSchema.ref
            ("object has no key " ++ goQuote "#/pointer-to-nowhere")], [])
      ∧ (Result.empty.addErrors
          [pointerErrorMessage "D" danglingRefSchema.ref
            ("object has no key " ++ goQuote "#/pointer-to-nowhere")]).errors =
          [pointerErrorMessage "D" danglingRefSchema.ref
            ("object has no key " ++ goQuote "#/pointer-to-nowhere")]) :=
  ⟨by decide, by decide, rfl,
    ref_walk_new_single_diagnostic failingResolver 5 "D" danglingRefSchema []
      ("object has no key " ++ goQuote "#/pointer-to-nowhere")
      (by decide) (by decide) rfl⟩

/-! ### SpecValidator.Validate input guard

Shallow embedding of the head of SpecValidator.Validate (src/spec.go lines
71-82; the older variant at lines 850-861 behaves identically here): the
dynamic argument is type-switched, only a non-nil *loads.Document proceeds;
anything else gets a fresh errors Result holding the InvalidDocument message
and a nil warnings Result, before the validator state is touched.  Documents
are opaque (numeric ids); the remainder of Validate after the guard is
passed as a continuation so the theorem holds whatever the rest does. -/

/-- The dynamic value handed to SpecValidator.Validate: a (possibly
typed-nil) *loads.Document, a nil interface, or any other value. -/
inductive SpecData where
  | document (d : Option Nat)
  | nilInterface
  | otherValue (tag : String)
  deriving Repr, DecidableEq

/-- True exactly for a non-nil *loads.Document. -/
def SpecData.isProperDocument : SpecData → Bool
  | SpecData.document (some _) => true
  | _ => false

/-- The mutable fields of SpecValidator assigned by Validate: the stored
document and the analyzer built from it. -/
structure SpecValidatorState where
  spec : Option Nat
  analyzer : Option Nat
  deriving Repr, DecidableEq

/-- The InvalidDocument message constant (src/spec_messages.go lines 26-27),
returned by invalidDocumentMsg (lines 49-51). -/
def InvalidDocument : String := "spec validator can only validate spec.Document objects"

/-- Shallow embedding of SpecValidator.Validate up to its input guard
(src/spec.go lines 71-86): non-document input yields the InvalidDocument
error, a nil warnings Result, and an untouched state; document input stores
the document and analyzer and continues with the rest of the validation. -/
def specValidatorValidate (st : SpecValidatorState) (data : SpecData)
    (rest : SpecValidatorState → Nat → Result × Option Result × SpecValidatorState) :
    Result × Option Result × SpecValidatorState :=
  let sd : Option Nat :=
    match data with
    | SpecData.document d => d
    | _ => none
  match sd with
  | none => (Result.empty.addErrors [InvalidDocument], none, st)
  | some d => rest { st with spec := some d, analyzer := some d } d

/-- Claim C10 -- for every input that is not a non-nil *loads.Document
(including nil), SpecValidator.Validate returns an errs Result holding
exactly the message "spec validator can only validate spec.Document objects"
together with a nil warnings Result, leaving the stored document and
analyzer unchanged, whatever the remainder of the validation would do. -/
theorem spec_validator_rejects_non_document (st : SpecValidatorState)
    (data : SpecData)
    (rest : SpecValidatorState → Nat → Result × Option Result × SpecValidatorState)
    (h : data.isProperDocument = false) :
    specValidatorValidate st data rest =
      ({ errors := [InvalidDocument], warnings := [], matchCount := 0,
         defaulters := [] }, none, st) := by
  cases data with
  | document d =>
    cases d with
    | none => rfl
    | some x => cases h
  | nilInterface => rfl
  | otherValue t => rfl

/-- Witness for C10: a nil interface input, with an arbitrary continuation,
returns exactly the InvalidDocument error and no warnings. -/
theorem spec_validator_rejects_non_document_witness :
    (SpecData.nilInterface.isProperDocument = false) ∧
      specValidatorValidate ⟨none, none⟩ SpecData.nilInterface
          (fun st _ => (Result.empty, some Result.empty, st)) =
        ({ errors := [InvalidDocument], warnings := [], matchCount := 0,
           defaulters := [] }, none, ⟨none, none⟩) :=
  ⟨by decide,
    spec_validator_rejects_non_document ⟨none, none⟩ SpecData.nilInterface
      (fun st _ => (Result.empty, some Result.empty, st)) (by decide)⟩

/-- Claim C4 -- warnings never change the valid/invalid verdict: IsValid
reads only the error bucket, so a Result holding only warnings is valid,
adding warnings never changes the verdict or the errors, and merging a
Result that carries only warnings (and no errors) preserves the verdict. -/
theorem warnings_never_affect_verdict :
    (∀ (ws : List String) (m : Nat) (d : List Nat),
      (Result.mk [] ws m d).isValid = true)
    ∧ (∀ (r : Result) (ws : List String),
        (r.addWarnings ws).errors = r.errors ∧ (r.addWarnings ws).isValid = r.isValid)
    ∧ (∀ (r : Result) (ws : List String) (m : Nat) (d : List Nat),
        (r.merge (some (Result.mk [] ws m d))).isValid = r.isValid) := by
  refine ⟨fun ws m d => rfl, fun r ws => ⟨rfl, rfl⟩, fun r ws m d => ?_⟩
  show ((addErrorsLoop r.errors [] false).isEmpty : Bool) = r.errors.isEmpty
  rfl

end Validate
